import Mathlib

/-!
Verification of the GHCR cleanup tool (`build/scripts/ghcr.py`).

The retention decision engine `find_versions_to_clean` is embedded as a pure
Lean function over version records. Timestamps are modelled as integers on a
single UTC time line, measured in seconds (the only comparisons the code makes
are order comparisons and absolute differences against whole-second bounds, so
the unit is immaterial). The two regular expressions in the code are embedded
as follows: the user-supplied `keep_tags_pattern` is an injected predicate
`keepMatch : String → Bool` (the code calls `pattern.search(tag)`, an
unanchored search, once per tag); the fixed anchored pattern `^git-commit-`
contains no metacharacters, so `re.match` with it is exactly a string-prefix
test and is embedded as `String.isPrefixOf`.

The command layer (`cleanup_versions_command`, `remove_version`) is embedded
as functions that return, next to their result, the ordered list of network
side effects (token acquisition, version listing, version deletion) they
perform, so that claims about what happens "before any network activity" are
statements about that trace. Regex compilation failure of the user pattern is
modelled by passing `none` for the pattern, and the registry response to the
listing call is an explicit input.
-/

namespace Ghcr

/-- One package version record, as consumed by the engine: the `id`,
`created_at` (parsed to a point `createdAt` on the integer time line, in
seconds) and `metadata.container.tags` fields of the API record
(`PackageVersion` TypedDict in `ghcr.py`). -/
structure PackageVersion where
  id : Int
  tags : List String
  createdAt : Int
  deriving Repr, DecidableEq

/-- The `action` field of a cleanup action: the string `keep` or `delete`. -/
inductive Action where
  | keep
  | delete
  deriving Repr, DecidableEq

/-- The `reason` strings produced by `find_versions_to_clean`, abstracted to
their template; `correlatedWithKept` carries the kept version id interpolated
into the string `Untagged version matches timestamp of kept version {id}`. -/
inductive Reason where
  | forcedDeleteAll
  | matchesKeepPattern
  | newerThanMaxAge
  | olderThanMaxAge
  | correlatedWithKept (keptId : Int)
  | orphan
  deriving Repr, DecidableEq

/-- A classification result (`CleanupAction` TypedDict in `ghcr.py`). -/
structure CleanupAction where
  version : PackageVersion
  action : Action
  reason : Reason
  deriving Repr, DecidableEq

/-- The local constant `timestamp_tolerance_seconds = 10` of
`find_versions_to_clean`. -/
def timestampToleranceSeconds : Nat := 10

/-- Structural string-prefix test on the underlying character lists. -/
def isPrefixOfChars : List Char → List Char → Bool
  | [], _ => true
  | _ :: _, [] => false
  | c :: cs, d :: ds => c == d && isPrefixOfChars cs ds

/-- The anchored regular expression `^git-commit-` of line 199: it has no
metacharacters, so `git_commit_regex.match(tag)` succeeds exactly when `tag`
starts with the literal `git-commit-`. -/
def gitCommitMatch (tag : String) : Bool :=
  isPrefixOfChars "git-commit-".data tag.data

/-- The partition test of `find_versions_to_clean` (lines 202-213): a version
counts as tagged when it has at least one tag, except that a sole tag matching
the anchored pattern `^git-commit-` does not count. -/
def hasRealTags (v : PackageVersion) : Bool :=
  match v.tags with
  | [] => false
  | [tag] => !gitCommitMatch tag
  | _ :: _ :: _ => true

/-- Classification of one tagged version (lines 227-254): a tag matching the
keep pattern wins, then strict comparison of `createdAt` against the cutoff
`now - tagged_max_age`, else deletion for age. -/
def classifyTaggedVersion (keepMatch : String → Bool) (now taggedMaxAge : Int)
    (version : PackageVersion) : CleanupAction :=
  let cutoffDate := now - taggedMaxAge
  let shouldKeepDueToPattern := version.tags.any keepMatch
  if shouldKeepDueToPattern then
    { version := version, action := .keep, reason := .matchesKeepPattern }
  else if version.createdAt > cutoffDate then
    { version := version, action := .keep, reason := .newerThanMaxAge }
  else
    { version := version, action := .delete, reason := .olderThanMaxAge }

/-- Insertion into `kept_tagged_versions_info`, a Python dict keyed by version
id: an existing key keeps its position and gets the new value, a fresh key is
appended, preserving insertion order. -/
def dictInsert (table : List (Int × Int)) (key value : Int) : List (Int × Int) :=
  if table.any (fun entry => entry.1 == key) then
    table.map (fun entry => if entry.1 == key then (key, value) else entry)
  else
    table ++ [(key, value)]

/-- One iteration of the tagged loop as it affects
`kept_tagged_versions_info` (lines 247-248): record id and timestamp of the
version when its action came out `keep`. -/
def keptStep (keepMatch : String → Bool) (now taggedMaxAge : Int)
    (table : List (Int × Int)) (version : PackageVersion) : List (Int × Int) :=
  if (classifyTaggedVersion keepMatch now taggedMaxAge version).action == .keep then
    dictInsert table version.id version.createdAt
  else
    table

/-- The `kept_tagged_versions_info` table after the tagged loop (lines
227-254): id and timestamp of every tagged version whose action came out
`keep`, in processing order. -/
def buildKeptInfo (keepMatch : String → Bool) (now taggedMaxAge : Int)
    (tagged : List PackageVersion) : List (Int × Int) :=
  tagged.foldl (keptStep keepMatch now taggedMaxAge) []

/-- The timestamp correlation test of the orphan loop (line 266):
`abs(orphan_created_date - kept_timestamp) <= timedelta(seconds=10)`. -/
def withinTolerance (orphanCreatedAt keptTimestamp : Int) : Bool :=
  (orphanCreatedAt - keptTimestamp).natAbs ≤ timestampToleranceSeconds

/-- Classification of one potential-orphan version (lines 257-275): default
delete as orphan, overridden by the first entry of the kept table whose
timestamp is within tolerance (the loop breaks at the first match). -/
def classifyOrphanVersion (keptInfo : List (Int × Int))
    (version : PackageVersion) : CleanupAction :=
  match keptInfo.find? (fun entry => withinTolerance version.createdAt entry.2) with
  | some entry =>
      { version := version, action := .keep, reason := .correlatedWithKept entry.1 }
  | none =>
      { version := version, action := .delete, reason := .orphan }

/-- The engine `find_versions_to_clean` (lines 165-277). The clock read
`datetime.now(timezone.utc)` of line 216 is the explicit parameter `now`.
The loops that append to `cleanup_actions` become maps over the two
order-preserving partitions of the input. -/
def find_versions_to_clean (versions : List PackageVersion) (taggedMaxAge : Int)
    (keepMatch : String → Bool) (removeAll : Bool) (now : Int) :
    List CleanupAction :=
  if removeAll then
    versions.map (fun version =>
      { version := version, action := .delete, reason := .forcedDeleteAll })
  else
    let taggedVersions := versions.filter hasRealTags
    let potentialOrphanVersions := versions.filter (fun v => !hasRealTags v)
    let keptInfo := buildKeptInfo keepMatch now taggedMaxAge taggedVersions
    taggedVersions.map (classifyTaggedVersion keepMatch now taggedMaxAge)
      ++ potentialOrphanVersions.map (classifyOrphanVersion keptInfo)

/-- The kept table the engine uses for a full input list: built from the
tagged partition only. -/
def keptInfoOf (keepMatch : String → Bool) (now taggedMaxAge : Int)
    (versions : List PackageVersion) : List (Int × Int) :=
  buildKeptInfo keepMatch now taggedMaxAge (versions.filter hasRealTags)

/-- A network-facing side effect of the command layer, in the order the code
performs them: credential acquisition (`token_provider.get_token()`), the
paginated listing request of `list_versions`, and the deletion request of
`remove_version`. -/
inductive NetEvent where
  | getTokenCall
  | listVersionsCall (ns pkg : String)
  | deleteVersionCall (ns pkg : String) (versionId : Int)
  deriving Repr, DecidableEq

/-- Errors the command surfaces: `invalidAllFlag` is the `sys.exit(1)` on a
bad `--all` value (lines 348-350); `configError` is the `re.error` raised by
`re.compile(keep_tags_pattern)` on an invalid pattern (line 224), which
propagates out of `find_versions_to_clean` uncaught. -/
inductive CommandError where
  | invalidAllFlag
  | configError
  deriving Repr, DecidableEq

/-- The function `remove_version` (lines 279-322) as a trace-producing function: in dry-run
mode it returns success at once (line 300-302), performing no side effect at
all; in live mode it acquires a token and issues the deletion request. -/
def remove_version (ns pkg : String) (versionId : Int) (dryRun : Bool) :
    List NetEvent × Bool :=
  if dryRun then
    ([], true)
  else
    ([NetEvent.getTokenCall, NetEvent.deleteVersionCall ns pkg versionId], true)

/-- The engine with the pattern-compilation step made explicit:
`keepTagsPattern = none` models a `keep_tags_pattern` string that
`re.compile` rejects. The `remove_all` early return (lines 186-193) happens
before the compilation at line 224, so an invalid pattern is never noticed on
that path. -/
def find_versions_to_clean_checked (versions : List PackageVersion)
    (taggedMaxAge : Int) (keepTagsPattern : Option (String → Bool))
    (removeAll : Bool) (now : Int) : Except CommandError (List CleanupAction) :=
  if removeAll then
    .ok (versions.map (fun version =>
      { version := version, action := .delete, reason := .forcedDeleteAll }))
  else
    match keepTagsPattern with
    | none => .error .configError
    | some keepMatch =>
        .ok (find_versions_to_clean versions taggedMaxAge keepMatch false now)

/-- The arguments of `cleanup_versions_command` (`CleanupArgs` Protocol). -/
structure CleanupArgs where
  ns : String
  pkg : String
  taggedMaxAge : Int
  reallyRemove : Bool
  keepTagsPattern : Option (String → Bool)
  allFlag : Option String

/-- The command `cleanup_versions_command` (lines 333-384) as a trace-producing function.
The registry's response to the listing call is the explicit input `registry`;
`now` is the clock read inside the classification step. The returned event
list records, in order, every network action performed before the command
returns its result. -/
def cleanup_versions_command (args : CleanupArgs)
    (registry : List PackageVersion) (now : Int) :
    List NetEvent × Except CommandError Unit :=
  let shouldRemoveAll :=
    match args.allFlag with
    | some s => s == "yes-remove-all"
    | none => false
  if args.allFlag.isSome && !shouldRemoveAll then
    ([], .error .invalidAllFlag)
  else
    let listEvents := [NetEvent.getTokenCall, NetEvent.listVersionsCall args.ns args.pkg]
    match find_versions_to_clean_checked registry args.taggedMaxAge
        args.keepTagsPattern shouldRemoveAll now with
    | .error e => (listEvents, .error e)
    | .ok actions =>
        let toRemove := (actions.filter (fun a => a.action == .delete)).map
          (fun a => a.version)
        let removeEvents := toRemove.foldl
          (fun acc version =>
            acc ++ (remove_version args.ns args.pkg version.id (!args.reallyRemove)).1)
          []
        (listEvents ++ removeEvents, .ok ())

/-! ### Concrete fixtures used by witnesses -/

/-- A keep pattern matching nothing. -/
def exKeepMatch : String → Bool := fun _ => false

/-- A keep pattern matching exactly the tag `latest`. -/
def exKeepLatest : String → Bool := fun tag => tag == "latest"

/-- A tagged version. -/
def exTagged : PackageVersion := { id := 1, tags := ["latest"], createdAt := 100 }

/-- An untagged version 5 seconds after `exTagged`. -/
def exOrphan : PackageVersion := { id := 2, tags := [], createdAt := 105 }

/-- A version whose only tag is a `git-commit-` tag. -/
def exGitOnly : PackageVersion :=
  { id := 3, tags := ["git-commit-abcd"], createdAt := 50 }

/-- A small input list exercising all three version shapes. -/
def exVersions : List PackageVersion := [exTagged, exOrphan, exGitOnly]

/-- An example namespace argument. -/
def exNs : String := "org/acme"

/-- An example package argument. -/
def exPkg : String := "img"

/-- Command arguments whose keep pattern fails to compile. -/
def exArgsBadPattern : CleanupArgs :=
  { ns := exNs, pkg := exPkg, taggedMaxAge := 604800, reallyRemove := true,
    keepTagsPattern := none, allFlag := none }

/-! ### Helper lemmas -/

/-- Unfolding of `withinTolerance`: the gap is at most 10 seconds, inclusive. -/
theorem withinTolerance_iff (a b : Int) :
    withinTolerance a b = true ↔ (a - b).natAbs ≤ 10 := by
  simp [withinTolerance, timestampToleranceSeconds]

/-- A list search returns an element all of whose predecessors fail the test. -/
theorem find?_of_first {α : Type} (p : α → Bool) (l1 l2 : List α) (a : α)
    (pa : p a = true) (h : ∀ x ∈ l1, p x = false) :
    (l1 ++ a :: l2).find? p = some a := by
  induction l1 with
  | nil => simp [List.find?, pa]
  | cons x xs ih =>
      have hx := h x (List.mem_cons_self x xs)
      simp only [List.cons_append, List.find?, hx]
      exact ih fun y hy => h y (List.mem_cons_of_mem x hy)

/-- A successful `find?` decomposes the list at the first hit. -/
theorem find?_some_decomp {α : Type} (p : α → Bool) (l : List α) (a : α)
    (h : l.find? p = some a) :
    p a = true ∧ ∃ l1 l2, l = l1 ++ a :: l2 ∧ ∀ x ∈ l1, p x = false := by
  induction l with
  | nil => simp [List.find?] at h
  | cons x xs ih =>
      cases hx : p x with
      | true =>
          rw [List.find?_cons_of_pos _ hx] at h
          obtain rfl : x = a := by injection h
          exact ⟨hx, [], xs, rfl, by simp⟩
      | false =>
          rw [List.find?_cons_of_neg _ (by simp [hx])] at h
          obtain ⟨pa, l1, l2, rfl, hall⟩ := ih h
          refine ⟨pa, x :: l1, l2, rfl, ?_⟩
          intro y hy
          rcases List.mem_cons.mp hy with rfl | hy
          · exact hx
          · exact hall y hy

/-- Any entry of a dict after insertion is an old entry or the new pair. -/
theorem mem_dictInsert (table : List (Int × Int)) (k v : Int)
    (entry : Int × Int) (h : entry ∈ dictInsert table k v) :
    entry ∈ table ∨ entry = (k, v) := by
  unfold dictInsert at h
  split at h
  · obtain ⟨e, he, heq⟩ := List.mem_map.mp h
    by_cases hk : (e.1 == k) = true
    · rw [if_pos hk] at heq
      exact Or.inr heq.symm
    · rw [if_neg hk] at heq
      exact Or.inl (heq ▸ he)
  · rcases List.mem_append.mp h with h1 | h2
    · exact Or.inl h1
    · right
      simpa using h2

/-- Any entry of the kept-info fold is an initial entry or comes from a kept
tagged version of the processed list. -/
theorem mem_foldl_keptStep (keepMatch : String → Bool) (now taggedMaxAge : Int)
    (tagged : List PackageVersion) (init : List (Int × Int))
    (entry : Int × Int)
    (h : entry ∈ tagged.foldl (keptStep keepMatch now taggedMaxAge) init) :
    entry ∈ init ∨ ∃ v ∈ tagged,
      (classifyTaggedVersion keepMatch now taggedMaxAge v).action = .keep
        ∧ entry = (v.id, v.createdAt) := by
  induction tagged generalizing init with
  | nil => exact Or.inl h
  | cons v vs ih =>
      simp only [List.foldl_cons] at h
      rcases ih (keptStep keepMatch now taggedMaxAge init v) h with h0 | ⟨w, hw, hkeep, heq⟩
      · unfold keptStep at h0
        split at h0
        · rcases mem_dictInsert _ _ _ _ h0 with h1 | h1
          · exact Or.inl h1
          · right
            refine ⟨v, List.mem_cons_self v vs, ?_, h1⟩
            next hcond => exact beq_iff_eq.mp hcond
        · exact Or.inl h0
      · right
        exact ⟨w, List.mem_cons_of_mem v hw, hkeep, heq⟩

/-- The engine on a non-forced run: tagged results in input order, then
orphan results in input order, correlated against the kept table. -/
theorem find_versions_to_clean_eq (versions : List PackageVersion)
    (taggedMaxAge : Int) (keepMatch : String → Bool) (now : Int) :
    find_versions_to_clean versions taggedMaxAge keepMatch false now
      = (versions.filter hasRealTags).map
          (classifyTaggedVersion keepMatch now taggedMaxAge)
        ++ (versions.filter fun v => !hasRealTags v).map
            (classifyOrphanVersion (keptInfoOf keepMatch now taggedMaxAge versions)) :=
  rfl

/-- Tagged classification leaves the version record untouched. -/
theorem classifyTaggedVersion_version (keepMatch : String → Bool)
    (now taggedMaxAge : Int) (v : PackageVersion) :
    (classifyTaggedVersion keepMatch now taggedMaxAge v).version = v := by
  simp only [classifyTaggedVersion]
  split
  · rfl
  · split
    · rfl
    · rfl

/-- Orphan classification leaves the version record untouched. -/
theorem classifyOrphanVersion_version (keptInfo : List (Int × Int))
    (v : PackageVersion) :
    (classifyOrphanVersion keptInfo v).version = v := by
  unfold classifyOrphanVersion
  split
  · rfl
  · rfl

/-- A tagged version of the input contributes its classification to the
output of a non-forced run. -/
theorem mem_output_tagged (versions : List PackageVersion) (taggedMaxAge : Int)
    (keepMatch : String → Bool) (now : Int) (v : PackageVersion)
    (hv : v ∈ versions) (ht : hasRealTags v = true) :
    classifyTaggedVersion keepMatch now taggedMaxAge v
      ∈ find_versions_to_clean versions taggedMaxAge keepMatch false now := by
  rw [find_versions_to_clean_eq]
  exact List.mem_append_left _
    (List.mem_map_of_mem _ (List.mem_filter.mpr ⟨hv, ht⟩))

/-- A potential-orphan version of the input contributes its classification to
the output of a non-forced run. -/
theorem mem_output_orphan (versions : List PackageVersion) (taggedMaxAge : Int)
    (keepMatch : String → Bool) (now : Int) (v : PackageVersion)
    (hv : v ∈ versions) (ho : hasRealTags v = false) :
    classifyOrphanVersion (keptInfoOf keepMatch now taggedMaxAge versions) v
      ∈ find_versions_to_clean versions taggedMaxAge keepMatch false now := by
  rw [find_versions_to_clean_eq]
  exact List.mem_append_right _
    (List.mem_map_of_mem _ (List.mem_filter.mpr ⟨hv, by simp [ho]⟩))

/-! ### Claims -/

/-- C1: with `forceDeleteAll` false, a potential-orphan version is classified
`keep` exactly when some entry of the kept table has a timestamp within an
absolute difference of at most 10 seconds (inclusive) of its own; when kept,
the reason cites the id of the first such entry in the insertion order of the
kept table; otherwise it is classified `delete` with the orphan reason. -/
theorem orphan_correlated_keep_iff (versions : List PackageVersion)
    (taggedMaxAge : Int) (keepMatch : String → Bool) (now : Int)
    (v : PackageVersion) (hv : v ∈ versions) (ho : hasRealTags v = false) :
    classifyOrphanVersion (keptInfoOf keepMatch now taggedMaxAge versions) v
        ∈ find_versions_to_clean versions taggedMaxAge keepMatch false now
    ∧ ((classifyOrphanVersion (keptInfoOf keepMatch now taggedMaxAge versions) v).action
          = .keep
        ↔ ∃ entry ∈ keptInfoOf keepMatch now taggedMaxAge versions,
            (v.createdAt - entry.2).natAbs ≤ 10)
    ∧ (∀ l1 entry l2,
        keptInfoOf keepMatch now taggedMaxAge versions = l1 ++ entry :: l2 →
        (v.createdAt - entry.2).natAbs ≤ 10 →
        (∀ e ∈ l1, ¬ (v.createdAt - e.2).natAbs ≤ 10) →
        classifyOrphanVersion (keptInfoOf keepMatch now taggedMaxAge versions) v
          = { version := v, action := .keep, reason := .correlatedWithKept entry.1 })
    ∧ ((∀ entry ∈ keptInfoOf keepMatch now taggedMaxAge versions,
          ¬ (v.createdAt - entry.2).natAbs ≤ 10) →
        classifyOrphanVersion (keptInfoOf keepMatch now taggedMaxAge versions) v
          = { version := v, action := .delete, reason := .orphan }) := by
  refine ⟨mem_output_orphan versions taggedMaxAge keepMatch now v hv ho, ?_, ?_, ?_⟩
  · constructor
    · intro hk
      unfold classifyOrphanVersion at hk
      cases hfind : (keptInfoOf keepMatch now taggedMaxAge versions).find?
          (fun entry => withinTolerance v.createdAt entry.2) with
      | none => rw [hfind] at hk; simp at hk
      | some e =>
          refine ⟨e, List.mem_of_find?_eq_some hfind, ?_⟩
          have hp : withinTolerance v.createdAt e.2 = true := by
            simpa using List.find?_some hfind
          exact (withinTolerance_iff v.createdAt e.2).mp hp
    · rintro ⟨e, he, htol⟩
      unfold classifyOrphanVersion
      cases hfind : (keptInfoOf keepMatch now taggedMaxAge versions).find?
          (fun entry => withinTolerance v.createdAt entry.2) with
      | none =>
          exact absurd ((withinTolerance_iff _ _).mpr htol)
            (List.find?_eq_none.mp hfind e he)
      | some e2 => rfl
  · intro l1 entry l2 hdecomp htol hfirst
    have hfind : (keptInfoOf keepMatch now taggedMaxAge versions).find?
        (fun entry => withinTolerance v.createdAt entry.2) = some entry := by
      rw [hdecomp]
      refine find?_of_first _ l1 l2 entry ((withinTolerance_iff _ _).mpr htol) ?_
      intro x hx
      cases hb : withinTolerance v.createdAt x.2 with
      | false => rfl
      | true => exact absurd ((withinTolerance_iff _ _).mp hb) (hfirst x hx)
    unfold classifyOrphanVersion
    rw [hfind]
  · intro hall
    have hfind : (keptInfoOf keepMatch now taggedMaxAge versions).find?
        (fun entry => withinTolerance v.createdAt entry.2) = none := by
      refine List.find?_eq_none.mpr ?_
      intro e he hw
      exact hall e he ((withinTolerance_iff _ _).mp hw)
    unfold classifyOrphanVersion
    rw [hfind]

/-- C2: a tagged version one of whose tags matches the keep pattern is kept
with the pattern reason, whatever its creation timestamp, and that is the
classification appearing in the output. -/
theorem tagged_keep_pattern_wins (versions : List PackageVersion)
    (taggedMaxAge : Int) (keepMatch : String → Bool) (now : Int)
    (v : PackageVersion) (hv : v ∈ versions) (ht : hasRealTags v = true)
    (hmatch : v.tags.any keepMatch = true) :
    classifyTaggedVersion keepMatch now taggedMaxAge v
      = { version := v, action := .keep, reason := .matchesKeepPattern }
    ∧ classifyTaggedVersion keepMatch now taggedMaxAge v
        ∈ find_versions_to_clean versions taggedMaxAge keepMatch false now := by
  constructor
  · simp [classifyTaggedVersion, hmatch]
  · exact mem_output_tagged versions taggedMaxAge keepMatch now v hv ht

/-- C3: a tagged version with no tag matching the keep pattern is kept, with
the newer-than-max-age reason, exactly when its creation timestamp is
strictly greater than `now - maxAge`; in particular a version created exactly
at the cutoff is deleted with the older-than-max-age reason. -/
theorem tagged_age_cutoff_strict (versions : List PackageVersion)
    (taggedMaxAge : Int) (keepMatch : String → Bool) (now : Int)
    (v : PackageVersion) (hv : v ∈ versions) (ht : hasRealTags v = true)
    (hnm : v.tags.any keepMatch = false) :
    classifyTaggedVersion keepMatch now taggedMaxAge v
        ∈ find_versions_to_clean versions taggedMaxAge keepMatch false now
    ∧ ((classifyTaggedVersion keepMatch now taggedMaxAge v).action = .keep
        ↔ v.createdAt > now - taggedMaxAge)
    ∧ (v.createdAt > now - taggedMaxAge →
        classifyTaggedVersion keepMatch now taggedMaxAge v
          = { version := v, action := .keep, reason := .newerThanMaxAge })
    ∧ (¬ v.createdAt > now - taggedMaxAge →
        classifyTaggedVersion keepMatch now taggedMaxAge v
          = { version := v, action := .delete, reason := .olderThanMaxAge })
    ∧ (v.createdAt = now - taggedMaxAge →
        classifyTaggedVersion keepMatch now taggedMaxAge v
          = { version := v, action := .delete, reason := .olderThanMaxAge }) := by
  refine ⟨mem_output_tagged versions taggedMaxAge keepMatch now v hv ht, ?_, ?_, ?_, ?_⟩
  · by_cases hage : v.createdAt > now - taggedMaxAge
    · simp [classifyTaggedVersion, hnm, hage]
    · simp [classifyTaggedVersion, hnm, hage]
  · intro hage
    simp [classifyTaggedVersion, hnm, hage]
  · intro hage
    simp [classifyTaggedVersion, hnm, hage]
  · intro hage
    have hage2 : ¬ v.createdAt > now - taggedMaxAge := by omega
    simp [classifyTaggedVersion, hnm, hage2]

/-- C4: with `remove_all` true the engine marks every version for deletion
with the forced reason, producing exactly the input list mapped to forced
deletions and evaluating no other rule. -/
theorem force_delete_all_short_circuit (versions : List PackageVersion)
    (taggedMaxAge : Int) (keepMatch : String → Bool) (now : Int) :
    find_versions_to_clean versions taggedMaxAge keepMatch true now
      = versions.map (fun version =>
          { version := version, action := .delete, reason := .forcedDeleteAll }) :=
  rfl

/-- C5: a version is in the potential-orphan group exactly when it has no
tags or exactly one tag starting with `git-commit-`; such a version is
classified through the orphan path, and any other version goes through the
tagged path, each contributing its classification to the output. -/
theorem git_commit_only_partition (versions : List PackageVersion)
    (taggedMaxAge : Int) (keepMatch : String → Bool) (now : Int)
    (v : PackageVersion) (hv : v ∈ versions) :
    (hasRealTags v = false ↔
      v.tags = [] ∨ ∃ t, v.tags = [t] ∧ gitCommitMatch t = true)
    ∧ (hasRealTags v = false →
        v ∈ versions.filter (fun u => !hasRealTags u)
        ∧ classifyOrphanVersion (keptInfoOf keepMatch now taggedMaxAge versions) v
            ∈ find_versions_to_clean versions taggedMaxAge keepMatch false now)
    ∧ (hasRealTags v = true →
        v ∈ versions.filter hasRealTags
        ∧ classifyTaggedVersion keepMatch now taggedMaxAge v
            ∈ find_versions_to_clean versions taggedMaxAge keepMatch false now) := by
  refine ⟨?_, ?_, ?_⟩
  · unfold hasRealTags
    match htags : v.tags with
    | [] => simp
    | [tag] =>
        simp only [Bool.not_eq_false]
        constructor
        · intro hg
          exact Or.inr ⟨tag, rfl, by simpa using hg⟩
        · rintro (hnil | ⟨t, ht, hg⟩)
          · exact absurd hnil (by simp)
          · obtain rfl : tag = t := by injection ht
            simpa using hg
    | t1 :: t2 :: rest => simp
  · intro ho
    exact ⟨List.mem_filter.mpr ⟨hv, by simp [ho]⟩,
      mem_output_orphan versions taggedMaxAge keepMatch now v hv ho⟩
  · intro ht
    exact ⟨List.mem_filter.mpr ⟨hv, ht⟩,
      mem_output_tagged versions taggedMaxAge keepMatch now v hv ht⟩

/-- C6: the non-forced output is the tagged partition's classifications in
input order followed by the orphan partition's classifications in input
order; the multiset of classified versions is exactly the input, and the
output length equals the input length for either value of `remove_all`. -/
theorem classification_order_and_count (versions : List PackageVersion)
    (taggedMaxAge : Int) (keepMatch : String → Bool) (now : Int) :
    find_versions_to_clean versions taggedMaxAge keepMatch false now
      = (versions.filter hasRealTags).map
          (classifyTaggedVersion keepMatch now taggedMaxAge)
        ++ (versions.filter fun v => !hasRealTags v).map
            (classifyOrphanVersion (keptInfoOf keepMatch now taggedMaxAge versions))
    ∧ ((find_versions_to_clean versions taggedMaxAge keepMatch false now).map
        fun a => a.version).Perm versions
    ∧ ∀ removeAll : Bool,
        (find_versions_to_clean versions taggedMaxAge keepMatch removeAll now).length
          = versions.length := by
  have hperm : ((find_versions_to_clean versions taggedMaxAge keepMatch false now).map
      fun a => a.version).Perm versions := by
    rw [find_versions_to_clean_eq, List.map_append, List.map_map, List.map_map]
    have h1 : (versions.filter hasRealTags).map
        ((fun a => a.version) ∘ classifyTaggedVersion keepMatch now taggedMaxAge)
        = versions.filter hasRealTags := by
      have hpt : ∀ a ∈ versions.filter hasRealTags,
          ((fun a => a.version) ∘ classifyTaggedVersion keepMatch now taggedMaxAge) a
            = id a :=
        fun a _ => classifyTaggedVersion_version keepMatch now taggedMaxAge a
      rw [List.map_congr_left hpt, List.map_id]
    have h2 : ((versions.filter fun v => !hasRealTags v).map
        ((fun a => a.version)
          ∘ classifyOrphanVersion (keptInfoOf keepMatch now taggedMaxAge versions)))
        = versions.filter fun v => !hasRealTags v := by
      have hpo : ∀ a ∈ versions.filter fun v => !hasRealTags v,
          ((fun a => a.version)
              ∘ classifyOrphanVersion (keptInfoOf keepMatch now taggedMaxAge versions)) a
            = id a :=
        fun a _ =>
          classifyOrphanVersion_version (keptInfoOf keepMatch now taggedMaxAge versions) a
      rw [List.map_congr_left hpo, List.map_id]
    rw [h1, h2]
    exact List.filter_append_perm hasRealTags versions
  refine ⟨find_versions_to_clean_eq versions taggedMaxAge keepMatch now, hperm, ?_⟩
  intro removeAll
  cases removeAll with
  | true => simp [find_versions_to_clean]
  | false =>
      calc (find_versions_to_clean versions taggedMaxAge keepMatch false now).length
          = ((find_versions_to_clean versions taggedMaxAge keepMatch false now).map
              fun a => a.version).length := (List.length_map _ _).symm
        _ = versions.length := hperm.length_eq

/-- C8: the engine is a pure function of the version list, the max age, the
keep pattern, the force flag and the instant `now` (the clock read of the
source is the explicit `now` parameter of the embedding); evaluating it twice
on the same inputs gives identical result sequences. -/
theorem classify_pure_deterministic (versions : List PackageVersion)
    (taggedMaxAge : Int) (keepMatch : String → Bool) (removeAll : Bool)
    (now : Int) :
    find_versions_to_clean versions taggedMaxAge keepMatch removeAll now
      = find_versions_to_clean versions taggedMaxAge keepMatch removeAll now :=
  rfl

/-- C9: in dry-run mode the removal operation performs no network side effect
at all — no token acquisition and no deletion request — and returns success,
for any namespace, package and version id. -/
theorem remove_version_dry_run_no_network (ns pkg : String) (versionId : Int) :
    remove_version ns pkg versionId true = ([], true) :=
  rfl

/-- C10: every entry of the kept table comes from a kept tagged version of
the input — an orphan never contributes — and the table, hence the
classification of any orphan, depends only on the tagged partition of the
input, not on the other orphans. -/
theorem kept_table_invariant (versions : List PackageVersion)
    (taggedMaxAge : Int) (keepMatch : String → Bool) (now : Int)
    (entry : Int × Int)
    (he : entry ∈ keptInfoOf keepMatch now taggedMaxAge versions)
    (versions2 : List PackageVersion)
    (hsame : versions.filter hasRealTags = versions2.filter hasRealTags) :
    (∃ w ∈ versions, hasRealTags w = true
        ∧ (classifyTaggedVersion keepMatch now taggedMaxAge w).action = .keep
        ∧ entry = (w.id, w.createdAt))
    ∧ keptInfoOf keepMatch now taggedMaxAge versions
        = keptInfoOf keepMatch now taggedMaxAge versions2
    ∧ ∀ u : PackageVersion,
        classifyOrphanVersion (keptInfoOf keepMatch now taggedMaxAge versions) u
          = classifyOrphanVersion (keptInfoOf keepMatch now taggedMaxAge versions2) u := by
  have heq : keptInfoOf keepMatch now taggedMaxAge versions
      = keptInfoOf keepMatch now taggedMaxAge versions2 := by
    unfold keptInfoOf
    rw [hsame]
  refine ⟨?_, heq, fun u => by rw [heq]⟩
  unfold keptInfoOf buildKeptInfo at he
  rcases mem_foldl_keptStep keepMatch now taggedMaxAge
      (versions.filter hasRealTags) [] entry he with h0 | ⟨w, hw, hkeep, heq2⟩
  · exact absurd h0 (List.not_mem_nil entry)
  · obtain ⟨hwv, hwt⟩ := List.mem_filter.mp hw
    exact ⟨w, hwv, hwt, hkeep, heq2⟩

/-- C7 counterexample: a run with an invalid keep pattern performs the
credential acquisition and the listing request and only then surfaces the
configuration error — the error is not raised before network activity,
because the pattern is compiled inside the classification step, which runs
after the listing call. -/
theorem config_error_after_listing_cex :
    cleanup_versions_command exArgsBadPattern [] 0
      = ([NetEvent.getTokenCall, NetEvent.listVersionsCall exNs exPkg],
          .error .configError)
    ∧ NetEvent.listVersionsCall exNs exPkg
        ∈ (cleanup_versions_command exArgsBadPattern [] 0).1 :=
  ⟨rfl, by decide⟩

/-- The three possible outcomes of a command run: rejected flag before any
event, an error surfaced right after the listing events, or success. -/
theorem cleanup_versions_command_cases (args : CleanupArgs)
    (registry : List PackageVersion) (now : Int) :
    cleanup_versions_command args registry now = ([], .error .invalidAllFlag)
    ∨ (∃ e, cleanup_versions_command args registry now
        = ([NetEvent.getTokenCall, NetEvent.listVersionsCall args.ns args.pkg],
            .error e))
    ∨ (cleanup_versions_command args registry now).2 = .ok () := by
  cases hall : args.allFlag with
  | none =>
      cases hfind : find_versions_to_clean_checked registry args.taggedMaxAge
          args.keepTagsPattern false now with
      | error e =>
          right; left
          exact ⟨e, by simp [cleanup_versions_command, hall, hfind]⟩
      | ok actions =>
          right; right
          simp [cleanup_versions_command, hall, hfind]
  | some s =>
      by_cases hs : s = "yes-remove-all"
      · subst hs
        cases hfind : find_versions_to_clean_checked registry args.taggedMaxAge
            args.keepTagsPattern true now with
        | error e =>
            right; left
            exact ⟨e, by simp [cleanup_versions_command, hall, hfind]⟩
        | ok actions =>
            right; right
            simp [cleanup_versions_command, hall, hfind]
      · left
        simp [cleanup_versions_command, hall, hs]

/-- C7 (amended): when the command surfaces a configuration error, no
deletion request has been performed — the error precedes all deletion
activity, though the listing request has already happened. -/
theorem config_error_before_deletion (args : CleanupArgs)
    (registry : List PackageVersion) (now : Int)
    (h : (cleanup_versions_command args registry now).2 = .error .configError) :
    ∀ ns pkg versionId,
      NetEvent.deleteVersionCall ns pkg versionId
        ∉ (cleanup_versions_command args registry now).1 := by
  intro ns pkg versionId
  rcases cleanup_versions_command_cases args registry now with hc | ⟨e, hc⟩ | hc
  · rw [hc]
    simp
  · rw [hc]
    simp
  · rw [hc] at h
    simp at h

/-! ### Witnesses -/

/-- Witness for C1: the untagged version created 5 seconds after the kept
tagged version is kept by correlation on a concrete run. -/
theorem orphan_correlated_keep_iff_witness :
    exOrphan ∈ exVersions ∧ hasRealTags exOrphan = false
    ∧ ((classifyOrphanVersion (keptInfoOf exKeepMatch 120 50 exVersions) exOrphan).action
          = .keep
        ↔ ∃ entry ∈ keptInfoOf exKeepMatch 120 50 exVersions,
            (exOrphan.createdAt - entry.2).natAbs ≤ 10) :=
  ⟨by decide, by decide,
    (orphan_correlated_keep_iff exVersions 50 exKeepMatch 120 exOrphan
      (by decide) (by decide)).2.1⟩

/-- Witness for C2: the version tagged `latest` is kept for the pattern
reason on a concrete run with a pattern matching `latest`. -/
theorem tagged_keep_pattern_wins_witness :
    exTagged ∈ exVersions ∧ hasRealTags exTagged = true
    ∧ exTagged.tags.any exKeepLatest = true
    ∧ classifyTaggedVersion exKeepLatest 120 50 exTagged
        = { version := exTagged, action := .keep, reason := .matchesKeepPattern } :=
  ⟨by decide, by decide, by decide,
    (tagged_keep_pattern_wins exVersions 50 exKeepLatest 120 exTagged
      (by decide) (by decide) (by decide)).1⟩

/-- Witness for C3: with a never-matching pattern, the tagged version is kept
exactly because its timestamp beats the cutoff on a concrete run. -/
theorem tagged_age_cutoff_strict_witness :
    exTagged ∈ exVersions ∧ hasRealTags exTagged = true
    ∧ exTagged.tags.any exKeepMatch = false
    ∧ ((classifyTaggedVersion exKeepMatch 120 50 exTagged).action = .keep
        ↔ exTagged.createdAt > 120 - 50) :=
  ⟨by decide, by decide, by decide,
    (tagged_age_cutoff_strict exVersions 50 exKeepMatch 120 exTagged
      (by decide) (by decide) (by decide)).2.1⟩

/-- Witness for C5: the version whose only tag is `git-commit-abcd` falls in
the potential-orphan group on a concrete run. -/
theorem git_commit_only_partition_witness :
    exGitOnly ∈ exVersions
    ∧ (hasRealTags exGitOnly = false ↔
        exGitOnly.tags = [] ∨ ∃ t, exGitOnly.tags = [t] ∧ gitCommitMatch t = true) :=
  ⟨by decide,
    (git_commit_only_partition exVersions 50 exKeepMatch 120 exGitOnly (by decide)).1⟩

/-- Witness for C7 (amended): the failing run of the counterexample performs
no deletion request. -/
theorem config_error_before_deletion_witness :
    (cleanup_versions_command exArgsBadPattern [] 0).2 = .error .configError
    ∧ NetEvent.deleteVersionCall exNs exPkg 7
        ∉ (cleanup_versions_command exArgsBadPattern [] 0).1 :=
  ⟨rfl, config_error_before_deletion exArgsBadPattern [] 0 rfl exNs exPkg 7⟩

/-- Witness for C10: on a concrete run the kept-table entry comes from the
kept tagged version, and dropping the orphans leaves the table unchanged. -/
theorem kept_table_invariant_witness :
    (1, 100) ∈ keptInfoOf exKeepMatch 120 50 exVersions
    ∧ exVersions.filter hasRealTags = [exTagged].filter hasRealTags
    ∧ keptInfoOf exKeepMatch 120 50 exVersions
        = keptInfoOf exKeepMatch 120 50 [exTagged] :=
  ⟨by decide, by decide,
    (kept_table_invariant exVersions 50 exKeepMatch 120 (1, 100) (by decide)
      [exTagged] (by decide)).2.1⟩

end Ghcr
